import Mathlib

/-!
Verification of the LeaderBoard-System points ledger and ranking engine.

The definitions below are a shallow embedding of the backend source:
  - backend/models/User.js            (participant schema, getTopUsers, hooks)
  - the Claim model                    (claim schema, post-save aggregate hook)
  - backend/routes/claimRoutes.js      (POST /api/claims, DELETE /api/claims/:id)
  - backend/routes/leaderboardRoutes.js (global, position, windowed leaderboards)

Timestamps are modelled as natural numbers (milliseconds).  Participant
aggregates are integers because the MongoDB update operators used by the
source apply unchecked increments and decrements.
-/

namespace LB

/-- Claim types accepted by the claim schema enum. -/
inductive ClaimType
  | random
  | bonus
  | manual
deriving DecidableEq, Repr

/-- Participant record, from the user schema in backend/models/User.js.
Fields not used by the ledger or ranking logic (name, email, avatar) are
omitted; id stands for the Mongo _id. -/
structure User where
  id : Nat
  totalPoints : Int
  claimsCount : Int
  isActive : Bool
  createdAt : Nat
  lastActivity : Nat
deriving DecidableEq, Repr

/-- Claim record, from the claim schema.  description and metadata are
omitted; id stands for the Mongo _id. -/
structure Claim where
  id : Nat
  userId : Nat
  points : Nat
  claimType : ClaimType
  isValid : Bool
  createdAt : Nat
deriving DecidableEq, Repr

/-- Database state: the users and claims collections, plus the id counter
standing for Mongo object-id generation for new claims. -/
structure Db where
  users : List User
  claims : List Claim
  nextClaimId : Nat
deriving DecidableEq, Repr

/-- Sum of points over the currently valid claims of one participant. -/
def validSum (cs : List Claim) (uid : Nat) : Int :=
  ((cs.filter (fun c => c.isValid && c.userId == uid)).map (fun c => (c.points : Int))).sum

/-- Number of currently valid claims of one participant. -/
def validCount (cs : List Claim) (uid : Nat) : Int :=
  (((cs.filter (fun c => c.isValid && c.userId == uid)).length : Nat) : Int)

/-- User.findById. -/
def findUser (db : Db) (uid : Nat) : Option User :=
  db.users.find? (fun u => u.id == uid)

/-- Claim.findById. -/
def findClaim (db : Db) (cid : Nat) : Option Claim :=
  db.claims.find? (fun c => c.id == cid)

/-- User.findByIdAndUpdate with an increment of totalPoints and claimsCount
and a set of lastActivity, as issued by the claim post-save hook. -/
def incUserTouch (us : List User) (uid : Nat) (dp dc : Int) (now : Nat) : List User :=
  us.map (fun u =>
    if u.id == uid then
      { u with totalPoints := u.totalPoints + dp, claimsCount := u.claimsCount + dc,
               lastActivity := now }
    else u)

/-- User.findByIdAndUpdate with only the increment of totalPoints and
claimsCount, as issued by DELETE /api/claims/:id (no lastActivity write). -/
def incUser (us : List User) (uid : Nat) (dp dc : Int) : List User :=
  us.map (fun u =>
    if u.id == uid then
      { u with totalPoints := u.totalPoints + dp, claimsCount := u.claimsCount + dc }
    else u)

/-- Award magnitude selection in POST /api/claims: a random draw in 1..10
when the claim type is random and no points were supplied, otherwise the
supplied points (none when absent, which later fails schema validation). -/
def claimPointsOf (ct : ClaimType) (pts : Option Nat) (draw : Nat) : Option Nat :=
  match ct, pts with
  | ClaimType.random, none => some (draw % 10 + 1)
  | _, p => p

/-- Outcome reported by POST /api/claims. -/
inductive SubmitResult
  | userNotFound
  | saveFailed
  | created (c : Claim)
deriving DecidableEq, Repr

/-- POST /api/claims: verify the user exists and is active, pick the award
magnitude, save the claim (the pre-save hook validates 1..10), then the
post-save hook increments the aggregates and sets lastActivity.  hookOk
models whether the aggregate update inside the post-save hook succeeds;
when it fails the error is only logged and the route still reports
success. -/
def submitClaim (db : Db) (uid : Nat) (ct : ClaimType) (pts : Option Nat)
    (draw now : Nat) (hookOk : Bool) : SubmitResult × Db :=
  match findUser db uid with
  | none => (SubmitResult.userNotFound, db)
  | some u =>
    if u.isActive = true then
      match claimPointsOf ct pts draw with
      | none => (SubmitResult.saveFailed, db)
      | some p =>
        if p < 1 ∨ 10 < p then (SubmitResult.saveFailed, db)
        else
          (SubmitResult.created ⟨db.nextClaimId, uid, p, ct, true, now⟩,
            { users := if hookOk then incUserTouch db.users uid (p : Int) 1 now else db.users,
              claims := db.claims ++ [⟨db.nextClaimId, uid, p, ct, true, now⟩],
              nextClaimId := db.nextClaimId + 1 })
    else (SubmitResult.userNotFound, db)

/-- DELETE /api/claims/:id: set isValid to false on the claim (regardless
of its previous validity), then unconditionally decrement the owning
user's totalPoints and claimsCount.  Returns none on a missing claim (404)
and the updated claim otherwise. -/
def deleteClaim (db : Db) (cid : Nat) : Option (Claim × Db) :=
  match findClaim db cid with
  | none => none
  | some c =>
    some ({ c with isValid := false },
      { users := incUser db.users c.userId (-(c.points : Int)) (-1),
        claims := db.claims.map (fun d => if d.id == cid then { d with isValid := false } else d),
        nextClaimId := db.nextClaimId })

/-- One externally triggered mutation of the store: a claim submission or
a claim invalidation. -/
inductive Op
  | submit (uid : Nat) (ct : ClaimType) (pts : Option Nat) (draw now : Nat) (hookOk : Bool)
  | revoke (cid : Nat)
deriving DecidableEq, Repr

/-- Apply one operation to the database (the state left behind by the
corresponding route handler). -/
def applyOp (db : Db) : Op → Db
  | Op.submit uid ct pts draw now hookOk => (submitClaim db uid ct pts draw now hookOk).2
  | Op.revoke cid =>
    match deleteClaim db cid with
    | none => db
    | some r => r.2

/-- Apply a sequence of operations in order. -/
def applyOps (db : Db) (ops : List Op) : Db :=
  ops.foldl applyOp db

/-- Aggregate-consistency invariant of the spec: every stored participant
aggregate equals the sum and count over that participant's currently
valid claims. -/
def Inv (db : Db) : Prop :=
  ∀ u ∈ db.users, u.totalPoints = validSum db.claims u.id ∧
    u.claimsCount = validCount db.claims u.id

/-- Well-formedness of the store: claim ids are distinct (Mongo _id is
unique) and below the id counter (fresh ids never collide). -/
def Wf (db : Db) : Prop :=
  db.claims.Pairwise (fun a b => a.id ≠ b.id) ∧ ∀ c ∈ db.claims, c.id < db.nextClaimId

/-- An operation is benign when its aggregate side effect succeeds and,
for an invalidation, the targeted claim is not already invalid. -/
def goodOp (db : Db) : Op → Prop
  | Op.submit _ _ _ _ _ hookOk => hookOk = true
  | Op.revoke cid => ∀ c ∈ db.claims, c.id = cid → c.isValid = true

/-- A sequence of operations is benign when each step is benign in the
state it executes in. -/
def goodSeq (db : Db) : List Op → Prop
  | [] => True
  | op :: ops => goodOp db op ∧ goodSeq (applyOp db op) ops

instance (db : Db) : Decidable (Inv db) :=
  inferInstanceAs (Decidable (∀ u ∈ db.users, _ ∧ _))

instance (db : Db) : Decidable (Wf db) :=
  inferInstanceAs (Decidable (_ ∧ _))

instance (db : Db) (op : Op) : Decidable (goodOp db op) :=
  match op with
  | Op.submit _ _ _ _ _ hookOk => inferInstanceAs (Decidable (hookOk = true))
  | Op.revoke cid => inferInstanceAs (Decidable (∀ c ∈ db.claims, c.id = cid → c.isValid = true))

instance goodSeqDec (db : Db) (ops : List Op) : Decidable (goodSeq db ops) :=
  match ops with
  | [] => Decidable.isTrue trivial
  | _ :: rest => @instDecidableAnd _ _ _ (goodSeqDec _ rest)

theorem validSum_cons (c : Claim) (cs : List Claim) (x : Nat) :
    validSum (c :: cs) x =
      (if c.isValid = true ∧ c.userId = x then (c.points : Int) else 0) + validSum cs x := by
  by_cases h : c.isValid = true ∧ c.userId = x
  · have hb : (c.isValid && c.userId == x) = true := by
      simp [h.1, h.2]
    simp [validSum, List.filter_cons, hb, h]
  · have hb : (c.isValid && c.userId == x) = false := by
      by_cases hv : c.isValid = true
      · have hx : ¬ c.userId = x := fun hx => h ⟨hv, hx⟩
        simp [hv, hx]
      · simp [Bool.not_eq_true] at hv
        simp [hv]
    simp [validSum, List.filter_cons, hb, h]

theorem validCount_cons (c : Claim) (cs : List Claim) (x : Nat) :
    validCount (c :: cs) x =
      (if c.isValid = true ∧ c.userId = x then 1 else 0) + validCount cs x := by
  by_cases h : c.isValid = true ∧ c.userId = x
  · have hb : (c.isValid && c.userId == x) = true := by
      simp [h.1, h.2]
    simp [validCount, List.filter_cons, hb, h]
    omega
  · have hb : (c.isValid && c.userId == x) = false := by
      by_cases hv : c.isValid = true
      · have hx : ¬ c.userId = x := fun hx => h ⟨hv, hx⟩
        simp [hv, hx]
      · simp [Bool.not_eq_true] at hv
        simp [hv]
    simp [validCount, List.filter_cons, hb, h]

theorem validSum_append_single (cs : List Claim) (c : Claim) (x : Nat) :
    validSum (cs ++ [c]) x =
      validSum cs x + (if c.isValid = true ∧ c.userId = x then (c.points : Int) else 0) := by
  induction cs with
  | nil =>
    rw [List.nil_append, validSum_cons]
    simp [validSum]
  | cons d rest ih =>
    rw [List.cons_append, validSum_cons, validSum_cons, ih]
    ring

theorem validCount_append_single (cs : List Claim) (c : Claim) (x : Nat) :
    validCount (cs ++ [c]) x =
      validCount cs x + (if c.isValid = true ∧ c.userId = x then 1 else 0) := by
  induction cs with
  | nil =>
    rw [List.nil_append, validCount_cons]
    simp [validCount]
  | cons d rest ih =>
    rw [List.cons_append, validCount_cons, validCount_cons, ih]
    ring

theorem map_invalidate_id (cs : List Claim) (cid : Nat)
    (h : ∀ d ∈ cs, d.id ≠ cid) :
    cs.map (fun d => if d.id == cid then { d with isValid := false } else d) = cs := by
  induction cs with
  | nil => rfl
  | cons d rest ih =>
    have hd : (d.id == cid) = false := by
      simp [h d (List.mem_cons_self d rest)]
    rw [List.map_cons, ih (fun e he => h e (List.mem_cons_of_mem d he))]
    simp [hd]

theorem invalidated_isValid (c : Claim) :
    ({ c with isValid := false } : Claim).isValid = false := rfl

theorem invalidated_userId (c : Claim) :
    ({ c with isValid := false } : Claim).userId = c.userId := rfl

theorem validSum_invalidate (cs : List Claim) (cid : Nat) (c : Claim)
    (hp : cs.Pairwise (fun a b => a.id ≠ b.id)) (hmem : c ∈ cs) (hid : c.id = cid) (x : Nat) :
    validSum (cs.map (fun d => if d.id == cid then { d with isValid := false } else d)) x =
      validSum cs x - (if c.isValid = true ∧ c.userId = x then (c.points : Int) else 0) := by
  induction cs with
  | nil => cases hmem
  | cons d rest ih =>
    rw [List.pairwise_cons] at hp
    rcases List.mem_cons.mp hmem with rfl | hmr
    · have hd : (c.id == cid) = true := by simp [hid]
      have hrest : rest.map (fun d => if d.id == cid then { d with isValid := false } else d)
          = rest := by
        refine map_invalidate_id rest cid (fun e he => ?_)
        exact fun hec => (hp.1 e he) (by rw [hid, hec])
      rw [List.map_cons, hrest]
      simp only [hd, if_true]
      rw [validSum_cons, validSum_cons]
      rw [if_neg (by simp [invalidated_isValid])]
      by_cases hc : c.isValid = true ∧ c.userId = x
      · rw [if_pos hc]
        ring
      · rw [if_neg hc]
        ring
    · have hd : (d.id == cid) = false := by
        have hne : d.id ≠ cid := fun hdc => (hp.1 c hmr) (by rw [hdc, hid])
        simp [hne]
      rw [List.map_cons,
        show (if (d.id == cid) = true then ({ d with isValid := false } : Claim) else d) = d by
          simp [hd]]
      rw [validSum_cons, validSum_cons, ih hp.2 hmr]
      ring

theorem validCount_invalidate (cs : List Claim) (cid : Nat) (c : Claim)
    (hp : cs.Pairwise (fun a b => a.id ≠ b.id)) (hmem : c ∈ cs) (hid : c.id = cid) (x : Nat) :
    validCount (cs.map (fun d => if d.id == cid then { d with isValid := false } else d)) x =
      validCount cs x - (if c.isValid = true ∧ c.userId = x then 1 else 0) := by
  induction cs with
  | nil => cases hmem
  | cons d rest ih =>
    rw [List.pairwise_cons] at hp
    rcases List.mem_cons.mp hmem with rfl | hmr
    · have hd : (c.id == cid) = true := by simp [hid]
      have hrest : rest.map (fun d => if d.id == cid then { d with isValid := false } else d)
          = rest := by
        refine map_invalidate_id rest cid (fun e he => ?_)
        exact fun hec => (hp.1 e he) (by rw [hid, hec])
      rw [List.map_cons, hrest]
      simp only [hd, if_true]
      rw [validCount_cons, validCount_cons]
      rw [if_neg (by simp [invalidated_isValid])]
      by_cases hc : c.isValid = true ∧ c.userId = x
      · rw [if_pos hc]
        ring
      · rw [if_neg hc]
        ring
    · have hd : (d.id == cid) = false := by
        have hne : d.id ≠ cid := fun hdc => (hp.1 c hmr) (by rw [hdc, hid])
        simp [hne]
      rw [List.map_cons,
        show (if (d.id == cid) = true then ({ d with isValid := false } : Claim) else d) = d by
          simp [hd]]
      rw [validCount_cons, validCount_cons, ih hp.2 hmr]
      ring

theorem update_id_eq (cid : Nat) (d : Claim) :
    (if d.id == cid then ({ d with isValid := false } : Claim) else d).id = d.id := by
  split <;> rfl

theorem Inv_append_inc (us : List User) (cs : List Claim) (c : Claim) (now : Nat)
    (hc : c.isValid = true)
    (hinv : ∀ u ∈ us, u.totalPoints = validSum cs u.id ∧ u.claimsCount = validCount cs u.id) :
    ∀ v ∈ incUserTouch us c.userId (c.points : Int) 1 now,
      v.totalPoints = validSum (cs ++ [c]) v.id ∧ v.claimsCount = validCount (cs ++ [c]) v.id := by
  intro v hv
  rw [incUserTouch, List.mem_map] at hv
  obtain ⟨u, hu, rfl⟩ := hv
  by_cases hid : u.id = c.userId
  · have hb : (u.id == c.userId) = true := by simp [hid]
    simp only [hb, if_true]
    rw [validSum_append_single, validCount_append_single]
    have hcu : c.isValid = true ∧ c.userId = u.id := ⟨hc, hid.symm⟩
    rw [if_pos hcu, if_pos hcu]
    have h0 := hinv u hu
    constructor
    · show u.totalPoints + (c.points : Int) = validSum cs u.id + (c.points : Int)
      rw [h0.1]
    · show u.claimsCount + 1 = validCount cs u.id + 1
      rw [h0.2]
  · have hb : (u.id == c.userId) = false := by simp [hid]
    simp only [hb, Bool.false_eq_true, if_false]
    rw [validSum_append_single, validCount_append_single]
    have hcu : ¬ (c.isValid = true ∧ c.userId = u.id) := by
      intro hx
      exact hid (hx.2.symm)
    rw [if_neg hcu, if_neg hcu]
    have h0 := hinv u hu
    simpa using h0

theorem submitClaim_notFound (db : Db) (uid : Nat) (ct : ClaimType) (pts : Option Nat)
    (draw now : Nat) (hookOk : Bool) (hfu : findUser db uid = none) :
    submitClaim db uid ct pts draw now hookOk = (SubmitResult.userNotFound, db) := by
  unfold submitClaim
  simp only [hfu]

theorem submitClaim_inactive (db : Db) (uid : Nat) (ct : ClaimType) (pts : Option Nat)
    (draw now : Nat) (hookOk : Bool) (u : User) (hfu : findUser db uid = some u)
    (hact : ¬ u.isActive = true) :
    submitClaim db uid ct pts draw now hookOk = (SubmitResult.userNotFound, db) := by
  unfold submitClaim
  simp only [hfu]
  rw [if_neg hact]

theorem submitClaim_noPoints (db : Db) (uid : Nat) (ct : ClaimType) (pts : Option Nat)
    (draw now : Nat) (hookOk : Bool) (u : User) (hfu : findUser db uid = some u)
    (hact : u.isActive = true) (hcp : claimPointsOf ct pts draw = none) :
    submitClaim db uid ct pts draw now hookOk = (SubmitResult.saveFailed, db) := by
  unfold submitClaim
  simp only [hfu]
  rw [if_pos hact]
  simp only [hcp]

theorem submitClaim_badPoints (db : Db) (uid : Nat) (ct : ClaimType) (pts : Option Nat)
    (draw now : Nat) (hookOk : Bool) (u : User) (p : Nat) (hfu : findUser db uid = some u)
    (hact : u.isActive = true) (hcp : claimPointsOf ct pts draw = some p)
    (hp : p < 1 ∨ 10 < p) :
    submitClaim db uid ct pts draw now hookOk = (SubmitResult.saveFailed, db) := by
  unfold submitClaim
  simp only [hfu]
  rw [if_pos hact]
  simp only [hcp]
  rw [if_pos hp]

theorem submitClaim_created (db : Db) (uid : Nat) (ct : ClaimType) (pts : Option Nat)
    (draw now : Nat) (hookOk : Bool) (u : User) (p : Nat) (hfu : findUser db uid = some u)
    (hact : u.isActive = true) (hcp : claimPointsOf ct pts draw = some p)
    (hp : ¬ (p < 1 ∨ 10 < p)) :
    submitClaim db uid ct pts draw now hookOk =
      (SubmitResult.created ⟨db.nextClaimId, uid, p, ct, true, now⟩,
        { users := if hookOk then incUserTouch db.users uid (p : Int) 1 now else db.users,
          claims := db.claims ++ [⟨db.nextClaimId, uid, p, ct, true, now⟩],
          nextClaimId := db.nextClaimId + 1 }) := by
  unfold submitClaim
  simp only [hfu]
  rw [if_pos hact]
  simp only [hcp]
  rw [if_neg hp]

theorem deleteClaim_none (db : Db) (cid : Nat) (hfc : findClaim db cid = none) :
    deleteClaim db cid = none := by
  unfold deleteClaim
  simp only [hfc]

theorem deleteClaim_found (db : Db) (cid : Nat) (c : Claim)
    (hfc : findClaim db cid = some c) :
    deleteClaim db cid = some ({ c with isValid := false },
      { users := incUser db.users c.userId (-(c.points : Int)) (-1),
        claims := db.claims.map (fun d => if d.id == cid then { d with isValid := false } else d),
        nextClaimId := db.nextClaimId }) := by
  unfold deleteClaim
  simp only [hfc]

theorem revoke_eq_of_found (db : Db) (cid : Nat) (c : Claim)
    (hfc : findClaim db cid = some c) :
    applyOp db (Op.revoke cid) =
      { users := incUser db.users c.userId (-(c.points : Int)) (-1),
        claims := db.claims.map (fun d => if d.id == cid then { d with isValid := false } else d),
        nextClaimId := db.nextClaimId } := by
  show (match deleteClaim db cid with | none => db | some r => r.2) = _
  rw [deleteClaim_found db cid c hfc]

theorem revoke_eq_of_missing (db : Db) (cid : Nat) (hfc : findClaim db cid = none) :
    applyOp db (Op.revoke cid) = db := by
  show (match deleteClaim db cid with | none => db | some r => r.2) = _
  rw [deleteClaim_none db cid hfc]

theorem Inv_submit (db : Db) (uid : Nat) (ct : ClaimType) (pts : Option Nat)
    (draw now : Nat) (hinv : Inv db) :
    Inv (submitClaim db uid ct pts draw now true).2 := by
  cases hfu : findUser db uid with
  | none =>
    rw [submitClaim_notFound db uid ct pts draw now true hfu]
    exact hinv
  | some u =>
    by_cases hact : u.isActive = true
    · cases hcp : claimPointsOf ct pts draw with
      | none =>
        rw [submitClaim_noPoints db uid ct pts draw now true u hfu hact hcp]
        exact hinv
      | some p =>
        by_cases hp : p < 1 ∨ 10 < p
        · rw [submitClaim_badPoints db uid ct pts draw now true u p hfu hact hcp hp]
          exact hinv
        · rw [submitClaim_created db uid ct pts draw now true u p hfu hact hcp hp]
          intro v hv
          refine Inv_append_inc db.users db.claims ⟨db.nextClaimId, uid, p, ct, true, now⟩
            now rfl hinv v ?_
          simpa using hv
    · rw [submitClaim_inactive db uid ct pts draw now true u hfu hact]
      exact hinv

theorem Inv_delete (db : Db) (cid : Nat) (hwf : Wf db)
    (hgood : ∀ c ∈ db.claims, c.id = cid → c.isValid = true)
    (hinv : Inv db) : Inv (applyOp db (Op.revoke cid)) := by
  cases hfc : findClaim db cid with
  | none =>
    rw [revoke_eq_of_missing db cid hfc]
    exact hinv
  | some c =>
    rw [revoke_eq_of_found db cid c hfc]
    have hmem : c ∈ db.claims := List.mem_of_find?_eq_some hfc
    have hid : c.id = cid := by
      have := List.find?_some hfc
      simpa using this
    have hval : c.isValid = true := hgood c hmem hid
    intro v hv
    simp only at hv
    rw [incUser, List.mem_map] at hv
    obtain ⟨u, hu, rfl⟩ := hv
    have h0 := hinv u hu
    by_cases huid : u.id = c.userId
    · have hb : (u.id == c.userId) = true := by simp [huid]
      simp only [hb, if_true]
      constructor
      · show u.totalPoints + -(c.points : Int) = validSum _ u.id
        rw [validSum_invalidate db.claims cid c hwf.1 hmem hid]
        rw [if_pos ⟨hval, huid.symm⟩, h0.1]
        ring
      · show u.claimsCount + (-1 : Int) = validCount _ u.id
        rw [validCount_invalidate db.claims cid c hwf.1 hmem hid]
        rw [if_pos ⟨hval, huid.symm⟩, h0.2]
        ring
    · have hb : (u.id == c.userId) = false := by simp [huid]
      simp only [hb, Bool.false_eq_true, if_false]
      have hcu : ¬ (c.isValid = true ∧ c.userId = u.id) := fun hx => huid (hx.2.symm)
      constructor
      · rw [validSum_invalidate db.claims cid c hwf.1 hmem hid, if_neg hcu, h0.1]
        ring
      · rw [validCount_invalidate db.claims cid c hwf.1 hmem hid, if_neg hcu, h0.2]
        ring

theorem Wf_submit (db : Db) (uid : Nat) (ct : ClaimType) (pts : Option Nat)
    (draw now : Nat) (hookOk : Bool) (hwf : Wf db) :
    Wf (submitClaim db uid ct pts draw now hookOk).2 := by
  cases hfu : findUser db uid with
  | none =>
    rw [submitClaim_notFound db uid ct pts draw now hookOk hfu]
    exact hwf
  | some u =>
    by_cases hact : u.isActive = true
    · cases hcp : claimPointsOf ct pts draw with
      | none =>
        rw [submitClaim_noPoints db uid ct pts draw now hookOk u hfu hact hcp]
        exact hwf
      | some p =>
        by_cases hp : p < 1 ∨ 10 < p
        · rw [submitClaim_badPoints db uid ct pts draw now hookOk u p hfu hact hcp hp]
          exact hwf
        · rw [submitClaim_created db uid ct pts draw now hookOk u p hfu hact hcp hp]
          constructor
          · show (db.claims ++ [(⟨db.nextClaimId, uid, p, ct, true, now⟩ : Claim)]).Pairwise
              (fun a b => a.id ≠ b.id)
            rw [List.pairwise_append]
            refine ⟨hwf.1, List.pairwise_singleton _ _, ?_⟩
            intro a ha b hb
            have hbid : b = (⟨db.nextClaimId, uid, p, ct, true, now⟩ : Claim) := by
              simpa using hb
            have := hwf.2 a ha
            rw [hbid]
            exact Nat.ne_of_lt this
          · intro c hc
            simp only at hc
            rw [List.mem_append] at hc
            rcases hc with hc | hc
            · exact Nat.lt_succ_of_lt (hwf.2 c hc)
            · have hce : c = (⟨db.nextClaimId, uid, p, ct, true, now⟩ : Claim) := by
                simpa using hc
              rw [hce]
              exact Nat.lt_succ_self _
    · rw [submitClaim_inactive db uid ct pts draw now hookOk u hfu hact]
      exact hwf

theorem Wf_applyOp (db : Db) (op : Op) (hwf : Wf db) : Wf (applyOp db op) := by
  cases op with
  | submit uid ct pts draw now hookOk => exact Wf_submit db uid ct pts draw now hookOk hwf
  | revoke cid =>
    cases hfc : findClaim db cid with
    | none =>
      rw [revoke_eq_of_missing db cid hfc]
      exact hwf
    | some c =>
      rw [revoke_eq_of_found db cid c hfc]
      constructor
      · show (db.claims.map
            (fun d => if d.id == cid then { d with isValid := false } else d)).Pairwise
            (fun a b => a.id ≠ b.id)
        rw [List.pairwise_map]
        refine hwf.1.imp_of_mem ?_
        intro a b _ _ hne
        rw [update_id_eq, update_id_eq]
        exact hne
      · intro e he
        simp only at he
        rw [List.mem_map] at he
        obtain ⟨d, hd, rfl⟩ := he
        rw [update_id_eq]
        exact hwf.2 d hd

theorem Inv_applyOp (db : Db) (op : Op) (hwf : Wf db) (hgood : goodOp db op)
    (hinv : Inv db) : Inv (applyOp db op) := by
  cases op with
  | submit uid ct pts draw now hookOk =>
    have hh : hookOk = true := hgood
    rw [hh]
    exact Inv_submit db uid ct pts draw now hinv
  | revoke cid => exact Inv_delete db cid hwf hgood hinv

/-- Example store: one active participant (id 0) with an empty ledger and
zeroed aggregates. -/
def exUser : User := ⟨0, 0, 0, true, 0, 0⟩

def exDb : Db := ⟨[exUser], [], 0⟩

/-- Submission of a five-point manual claim followed by a double invalidation
of the same claim (DELETE /api/claims/0 issued twice). -/
def exOpsDouble : List Op :=
  [Op.submit 0 ClaimType.manual (some 5) 0 10 true, Op.revoke 0, Op.revoke 0]

/-- The §8 scenario: three claims of 5, 3 and 2 points, then one invalidation
of the five-point claim. -/
def exOpsGood : List Op :=
  [Op.submit 0 ClaimType.manual (some 5) 0 10 true,
   Op.submit 0 ClaimType.manual (some 3) 0 11 true,
   Op.submit 0 ClaimType.manual (some 2) 0 12 true,
   Op.revoke 0]

/-- C1 counterexample: the claim quantifies over any sequence of submissions
and invalidations, but after submitting a five-point claim and invalidating it
twice the participant holds totalPoints = -5 and claimsCount = -1 while the
sum and count over valid claims are 0, so the aggregate-consistency invariant
fails. -/
theorem c1_counterexample : ¬ Inv (applyOps exDb exOpsDouble) := by decide

/-- C1 (amended): for every sequence of claim submissions and invalidations
in which each aggregate update inside the post-save hook succeeds and no
invalidation targets an already-invalid claim, every participant's
totalPoints equals the sum of points over currently valid claims and
claimsCount equals their number; each submission and each such invalidation
restores the invariant. -/
theorem c1_aggregate_consistency (db : Db) (ops : List Op)
    (hwf : Wf db) (hinv : Inv db) (hgood : goodSeq db ops) :
    Inv (applyOps db ops) := by
  induction ops generalizing db with
  | nil => exact hinv
  | cons op rest ih =>
    rw [show applyOps db (op :: rest) = applyOps (applyOp db op) rest from rfl]
    exact ih (applyOp db op) (Wf_applyOp db op hwf) (Inv_applyOp db op hwf hgood.1 hinv)
      hgood.2

/-- C1 witness: the amended theorem applied to the §8 scenario (claims of
5, 3, 2 points, then one invalidation of the five-point claim). -/
theorem c1_aggregate_consistency_witness : Inv (applyOps exDb exOpsGood) :=
  c1_aggregate_consistency exDb exOpsGood (by decide) (by decide) (by decide)

/-- C2: evaluation of DELETE /api/claims/:id at the failing input.  After one
submission of a five-point claim and one invalidation, the aggregates read
(0, 0); invalidating the very same claim a second time decrements again and
leaves (-5, -1): the decrement is not applied exactly once. -/
theorem c2_second_revoke_double_decrements :
    (applyOps exDb [Op.submit 0 ClaimType.manual (some 5) 0 10 true, Op.revoke 0]).users.map
        (fun u => (u.totalPoints, u.claimsCount)) = [((0 : Int), (0 : Int))] ∧
    (applyOps exDb exOpsDouble).users.map
        (fun u => (u.totalPoints, u.claimsCount)) = [((-5 : Int), (-1 : Int))] := by
  decide

/-- Modelled from the spec: no reconciliation routine exists anywhere in the
repository source (no code recomputes totalPoints/claimsCount from the claims
collection), while §4.2 of the spec mandates one.  Following the spec words:
given a participant id, reset totalPoints and claimsCount by summing the
ledger directly. -/
def reconcile (db : Db) (uid : Nat) : Db :=
  { db with users := db.users.map (fun u =>
      if u.id == uid then
        { u with totalPoints := validSum db.claims uid,
                 claimsCount := validCount db.claims uid }
      else u) }

/-- C3: reconciliation leaves the ledger untouched, restores the aggregate
invariant for the given participant from any prior aggregate state, and is
idempotent. -/
theorem c3_reconcile_restores_and_idempotent (db : Db) (uid : Nat) :
    (reconcile db uid).claims = db.claims ∧
    (∀ v ∈ (reconcile db uid).users, v.id = uid →
      v.totalPoints = validSum (reconcile db uid).claims v.id ∧
      v.claimsCount = validCount (reconcile db uid).claims v.id) ∧
    reconcile (reconcile db uid) uid = reconcile db uid := by
  refine ⟨rfl, ?_, ?_⟩
  · intro v hv hvid
    rw [reconcile] at hv
    simp only at hv
    rw [List.mem_map] at hv
    obtain ⟨u, hu, rfl⟩ := hv
    by_cases h : u.id = uid
    · have hb : (u.id == uid) = true := by simp [h]
      simp only [hb, if_true]
      constructor
      · show validSum db.claims uid = validSum (reconcile db uid).claims u.id
        rw [show (reconcile db uid).claims = db.claims from rfl, h]
      · show validCount db.claims uid = validCount (reconcile db uid).claims u.id
        rw [show (reconcile db uid).claims = db.claims from rfl, h]
    · have hb : (u.id == uid) = false := by simp [h]
      rw [hb] at hvid
      simp only [Bool.false_eq_true, if_false] at hvid
      exact absurd hvid h
  · unfold reconcile
    simp only
    congr 1
    rw [List.map_map]
    refine List.map_congr_left ?_
    intro u hu
    by_cases h : u.id = uid
    · simp [h]
    · simp [h]

/-- Ordering realizing the Mongo sort key of getTopUsers and the position
context query: totalPoints descending, createdAt ascending. -/
def userLeP (a b : User) : Prop :=
  b.totalPoints < a.totalPoints ∨
    (a.totalPoints = b.totalPoints ∧ a.createdAt ≤ b.createdAt)

instance : DecidableRel userLeP := fun a b =>
  inferInstanceAs (Decidable (_ ∨ _))

instance : IsTrans User userLeP :=
  ⟨fun a b c h1 h2 => by
    unfold userLeP at h1 h2 ⊢
    omega⟩

instance : IsTotal User userLeP :=
  ⟨fun a b => by
    unfold userLeP
    omega⟩

/-- Active users in leaderboard order:
User.find({isActive:true}).sort({totalPoints:-1, createdAt:1}). -/
def sortedActive (db : Db) : List User :=
  (db.users.filter (fun u => u.isActive)).insertionSort userLeP

/-- userSchema.statics.getTopUsers: the sorted active users limited to the
requested count. -/
def getTopUsers (db : Db) (limit : Nat) : List User :=
  (sortedActive db).take limit

/-- Leaderboard entry returned by GET /api/leaderboard: the user together
with the assigned 1-based rank. -/
structure LBEntry where
  user : User
  rank : Nat
deriving DecidableEq, Repr

/-- Sequential rank assignment, mirroring map((user, index) => rank:index+1)
with the first rank given by r. -/
def withRanks (r : Nat) : List User → List LBEntry
  | [] => []
  | u :: us => ⟨u, r⟩ :: withRanks (r + 1) us

/-- GET /api/leaderboard: top users with ranks starting at 1. -/
def globalLeaderboard (db : Db) (limit : Nat) : List LBEntry :=
  withRanks 1 (getTopUsers db limit)

/-- Rank computed by GET /api/leaderboard/user/:userId/position:
countDocuments({isActive:true, totalPoints:{gt: user.totalPoints}}) + 1. -/
def userRank (db : Db) (u : User) : Nat :=
  db.users.countP (fun v => v.isActive && decide (u.totalPoints < v.totalPoints)) + 1

/-- Context window of the position route: the sorted active users with
skip(Math.max(0, rank - context - 1)) and limit(context * 2 + 1), where
context = 2. -/
def contextUsers (db : Db) (u : User) : List User :=
  ((sortedActive db).drop (max 0 (userRank db u - 2 - 1))).take (2 * 2 + 1)

theorem sortedActive_sorted (db : Db) :
    (sortedActive db).Pairwise userLeP :=
  List.sorted_insertionSort userLeP _

theorem mem_sortedActive_iff (db : Db) (u : User) :
    u ∈ sortedActive db ↔ u ∈ db.users ∧ u.isActive = true := by
  rw [sortedActive, List.Perm.mem_iff (List.perm_insertionSort userLeP _), List.mem_filter]

theorem sortedActive_active (db : Db) (u : User) (hu : u ∈ sortedActive db) :
    u.isActive = true :=
  ((mem_sortedActive_iff db u).mp hu).2

theorem mem_sortedActive (db : Db) (u : User) (hu : u ∈ db.users)
    (hact : u.isActive = true) : u ∈ sortedActive db :=
  (mem_sortedActive_iff db u).mpr ⟨hu, hact⟩

theorem withRanks_map_user (r : Nat) (l : List User) :
    (withRanks r l).map (fun e => e.user) = l := by
  induction l generalizing r with
  | nil => rfl
  | cons u us ih => rw [withRanks, List.map_cons, ih]

theorem withRanks_length (r : Nat) (l : List User) :
    (withRanks r l).length = l.length := by
  induction l generalizing r with
  | nil => rfl
  | cons u us ih => rw [withRanks, List.length_cons, List.length_cons, ih]

theorem withRanks_map_rank (r : Nat) (l : List User) :
    (withRanks r l).map (fun e => e.rank) = List.range' r l.length := by
  induction l generalizing r with
  | nil => rfl
  | cons u us ih => rw [withRanks, List.map_cons, ih, List.length_cons, List.range'_succ]

/-- C4: the global leaderboard contains only active participants, is ordered
by totalPoints descending with ties broken by createdAt ascending, and its
rank column is exactly the sequence 1..N (strictly sequential, no duplicate
ranks even on point ties). -/
theorem c4_global_leaderboard (db : Db) (limit : Nat) :
    (∀ e ∈ globalLeaderboard db limit, e.user.isActive = true) ∧
    (globalLeaderboard db limit).Pairwise (fun a b =>
      b.user.totalPoints < a.user.totalPoints ∨
      (a.user.totalPoints = b.user.totalPoints ∧ a.user.createdAt ≤ b.user.createdAt)) ∧
    (globalLeaderboard db limit).map (fun e => e.rank) =
      List.range' 1 (globalLeaderboard db limit).length := by
  refine ⟨?_, ?_, ?_⟩
  · intro e he
    have hm := List.mem_map_of_mem (fun e => e.user) he
    rw [globalLeaderboard, withRanks_map_user] at hm
    exact sortedActive_active db e.user (List.take_subset _ _ hm)
  · have h1 : (getTopUsers db limit).Pairwise userLeP :=
      List.Pairwise.sublist (List.take_sublist _ _) (sortedActive_sorted db)
    have h2 : ((globalLeaderboard db limit).map (fun e => e.user)).Pairwise userLeP := by
      rw [globalLeaderboard, withRanks_map_user]
      exact h1
    exact List.pairwise_map.mp h2
  · rw [globalLeaderboard, withRanks_map_rank, withRanks_length]

/-- Participant A of the §8 scenario: zero points, registered at t0 = 0. -/
def userA : User := ⟨1, 0, 0, true, 0, 0⟩

/-- Participant B of the §8 scenario: zero points, registered at t1 = 1. -/
def userB : User := ⟨2, 0, 0, true, 1, 0⟩

def twoUserDb : Db := ⟨[userA, userB], [], 0⟩

/-- C5: the position route computes competition ranking: the rank is one plus
the number of active participants with strictly greater totalPoints, so any
two participants with equal totalPoints receive the same rank; in the
two-participant zero-point scenario both receive rank 1 (while the global
leaderboard orders A before B with distinct ranks 1 and 2). -/
theorem c5_position_rank_competition (db : Db) (p q : User)
    (hpq : p.totalPoints = q.totalPoints) :
    userRank db p = userRank db q ∧
    userRank twoUserDb userA = 1 ∧ userRank twoUserDb userB = 1 ∧
    globalLeaderboard twoUserDb 10 = [⟨userA, 1⟩, ⟨userB, 2⟩] := by
  refine ⟨?_, by decide, by decide, by decide⟩
  unfold userRank
  rw [hpq]

/-- C5 witness: instantiated at the two zero-point participants. -/
theorem c5_position_rank_competition_witness :
    userRank twoUserDb userA = userRank twoUserDb userB ∧
    userRank twoUserDb userA = 1 ∧ userRank twoUserDb userB = 1 ∧
    globalLeaderboard twoUserDb 10 = [⟨userA, 1⟩, ⟨userB, 2⟩] :=
  c5_position_rank_competition twoUserDb userA userB (by decide)

/-- Six active participants with distinct totalPoints 60 > 50 > 40 > 30 >
20 > 10; the last one is exU6. -/
def exDb6 : Db :=
  ⟨[⟨1, 60, 0, true, 0, 0⟩, ⟨2, 50, 0, true, 0, 0⟩, ⟨3, 40, 0, true, 0, 0⟩,
    ⟨4, 30, 0, true, 0, 0⟩, ⟨5, 20, 0, true, 0, 0⟩, ⟨6, 10, 0, true, 0, 0⟩], [], 0⟩

def exU6 : User := ⟨6, 10, 0, true, 0, 0⟩

def exU1 : User := ⟨1, 60, 0, true, 0, 0⟩

/-- C7 counterexample: with six active participants the last-ranked one
(rank 6) receives a context window of only 3 entries (positions 4..6), not
the claimed full 5-entry neighborhood shifted up (positions 2..6): the code
truncates at the bottom instead of shifting the window up. -/
theorem c7_counterexample :
    (sortedActive exDb6).length = 6 ∧ userRank exDb6 exU6 = 6 ∧
    (contextUsers exDb6 exU6).length = 3 ∧
    contextUsers exDb6 exU6 ≠ ((sortedActive exDb6).drop 1).take (2 * 2 + 1) := by
  decide

/-- C7 (amended): the context window takes up to 5 entries of the sorted
active list starting at position max(0, rank-3); near rank 1 it clamps to
the top of the list (a full take of the first 5), while near the last rank
its length is min 5 (N - (rank-3)), i.e. it truncates rather than shifting
up. -/
theorem c7_context_window (db : Db) (u : User) :
    (contextUsers db u).length =
      min (2 * 2 + 1) ((sortedActive db).length - (userRank db u - 2 - 1)) ∧
    (userRank db u ≤ 3 → contextUsers db u = (sortedActive db).take (2 * 2 + 1)) := by
  constructor
  · rw [contextUsers, List.length_take, List.length_drop, Nat.zero_max]
  · intro h
    rw [contextUsers, show max 0 (userRank db u - 2 - 1) = 0 by omega, List.drop_zero]

/-- C7 witness: for the top-ranked participant of the six-user store the
window is the first five entries of the sorted list. -/
theorem c7_context_window_witness :
    contextUsers exDb6 exU1 = (sortedActive exDb6).take (2 * 2 + 1) :=
  (c7_context_window exDb6 exU1).2 (by decide)

/-- Match stage of GET /api/leaderboard/top/:period:
{ isValid: true, createdAt: { gte: wstart, lte: wstop } }. -/
def windowClaims (db : Db) (wstart wstop : Nat) : List Claim :=
  db.claims.filter (fun c =>
    c.isValid && decide (wstart ≤ c.createdAt) && decide (c.createdAt ≤ wstop))

/-- Group-stage keys: the distinct userIds among the matched claims. -/
def groupIds (cs : List Claim) : List Nat :=
  (cs.map (fun c => c.userId)).dedup

/-- periodPoints of the group stage: sum of points over one user's matched
claims. -/
def periodPointsOf (cs : List Claim) (uid : Nat) : Nat :=
  ((cs.filter (fun c => c.userId == uid)).map (fun c => c.points)).sum

/-- periodClaims of the group stage: number of one user's matched claims. -/
def periodClaimsOf (cs : List Claim) (uid : Nat) : Nat :=
  (cs.filter (fun c => c.userId == uid)).length

/-- Aggregation row after lookup, unwind, the isActive match and the
projection. -/
structure PRow where
  user : User
  periodPoints : Nat
  periodClaims : Nat
deriving DecidableEq, Repr

/-- Sort key { periodPoints: -1, periodClaims: -1 }. -/
def rowLeP (a b : PRow) : Prop :=
  b.periodPoints < a.periodPoints ∨
    (a.periodPoints = b.periodPoints ∧ b.periodClaims ≤ a.periodClaims)

instance : DecidableRel rowLeP := fun a b =>
  inferInstanceAs (Decidable (_ ∨ _))

instance : IsTrans PRow rowLeP :=
  ⟨fun a b c h1 h2 => by
    unfold rowLeP at h1 h2 ⊢
    omega⟩

instance : IsTotal PRow rowLeP :=
  ⟨fun a b => by
    unfold rowLeP
    omega⟩

/-- Group rows of the aggregation: one per distinct userId with matched
claims, joined against an existing user that is active. -/
def periodRows (db : Db) (wstart wstop : Nat) : List PRow :=
  (groupIds (windowClaims db wstart wstop)).filterMap (fun uid =>
    match findUser db uid with
    | none => none
    | some u =>
      if u.isActive = true then
        some ⟨u, periodPointsOf (windowClaims db wstart wstop) uid,
          periodClaimsOf (windowClaims db wstart wstop) uid⟩
      else none)

/-- Entry of the windowed leaderboard response. -/
structure WEntry where
  user : User
  periodPoints : Nat
  periodClaims : Nat
  rank : Nat
deriving DecidableEq, Repr

/-- Sequential rank assignment of the windowed route. -/
def withRanksW (r : Nat) : List PRow → List WEntry
  | [] => []
  | p :: ps => ⟨p.user, p.periodPoints, p.periodClaims, r⟩ :: withRanksW (r + 1) ps

/-- GET /api/leaderboard/top/:period for the window [wstart, wstop]. -/
def periodLeaderboard (db : Db) (wstart wstop limit : Nat) : List WEntry :=
  withRanksW 1 (((periodRows db wstart wstop).insertionSort rowLeP).take limit)

/-- Periods accepted by the windowed route. -/
inductive Period
  | today
  | week
  | month
  | year
deriving DecidableEq, Repr

/-- Time inputs of getDateRange: the current instant, local midnight, and
the results of the calendar arithmetic setMonth(-1) / setFullYear(-1). -/
structure Clock where
  now : Nat
  startOfDay : Nat
  monthAgo : Nat
  yearAgo : Nat
deriving DecidableEq, Repr

def msPerDay : Nat := 86400000

/-- getDateRange in leaderboardRoutes.js: today = local midnight through
now, week = now minus 7 days, month and year via calendar arithmetic. -/
def getDateRange (p : Period) (clk : Clock) : Nat × Nat :=
  match p with
  | Period.today => (clk.startOfDay, clk.now)
  | Period.week => (clk.now - 7 * msPerDay, clk.now)
  | Period.month => (clk.monthAgo, clk.now)
  | Period.year => (clk.yearAgo, clk.now)

theorem find?_user_eq (us : List User) (u : User)
    (hp : us.Pairwise (fun a b => a.id ≠ b.id)) (hu : u ∈ us) :
    us.find? (fun v => v.id == u.id) = some u := by
  induction us with
  | nil => cases hu
  | cons v rest ih =>
    rw [List.pairwise_cons] at hp
    rcases List.mem_cons.mp hu with rfl | hur
    · rw [List.find?_cons_of_pos]
      simp
    · rw [List.find?_cons_of_neg]
      · exact ih hp.2 hur
      · simp
        exact hp.1 u hur
  
theorem withRanksW_map_row (r : Nat) (l : List PRow) :
    (withRanksW r l).map (fun e => (⟨e.user, e.periodPoints, e.periodClaims⟩ : PRow)) = l := by
  induction l generalizing r with
  | nil => rfl
  | cons p ps ih => rw [withRanksW, List.map_cons, ih]

theorem withRanksW_length (r : Nat) (l : List PRow) :
    (withRanksW r l).length = l.length := by
  induction l generalizing r with
  | nil => rfl
  | cons p ps ih => rw [withRanksW, List.length_cons, List.length_cons, ih]

theorem withRanksW_map_rank (r : Nat) (l : List PRow) :
    (withRanksW r l).map (fun e => e.rank) = List.range' r l.length := by
  induction l generalizing r with
  | nil => rfl
  | cons p ps ih => rw [withRanksW, List.map_cons, ih, List.length_cons, List.range'_succ]

theorem mem_withRanksW_iff (r : Nat) (l : List PRow) (x : User) :
    (∃ e ∈ withRanksW r l, e.user = x) ↔ (∃ p ∈ l, p.user = x) := by
  induction l generalizing r with
  | nil =>
    constructor
    · rintro ⟨e, he, -⟩
      cases he
    · rintro ⟨p, hp, -⟩
      cases hp
  | cons p ps ih =>
    rw [withRanksW]
    constructor
    · rintro ⟨e, he, hx⟩
      rcases List.mem_cons.mp he with rfl | hm
      · exact ⟨p, List.mem_cons_self _ _, hx⟩
      · obtain ⟨q, hq, hqx⟩ := (ih (r + 1)).mp ⟨e, hm, hx⟩
        exact ⟨q, List.mem_cons_of_mem _ hq, hqx⟩
    · rintro ⟨q, hq, hqx⟩
      rcases List.mem_cons.mp hq with rfl | hm
      · exact ⟨⟨q.user, q.periodPoints, q.periodClaims, r⟩, List.mem_cons_self _ _, hqx⟩
      · obtain ⟨e, he, hex⟩ := (ih (r + 1)).mpr ⟨q, hm, hqx⟩
        exact ⟨e, List.mem_cons_of_mem _ he, hex⟩

theorem mem_windowClaims_iff (db : Db) (wstart wstop : Nat) (c : Claim) :
    c ∈ windowClaims db wstart wstop ↔
      c ∈ db.claims ∧ c.isValid = true ∧ wstart ≤ c.createdAt ∧ c.createdAt ≤ wstop := by
  rw [windowClaims, List.mem_filter]
  simp [and_assoc]

theorem mem_periodRows_iff (db : Db) (wstart wstop : Nat) (u : User)
    (husers : db.users.Pairwise (fun a b => a.id ≠ b.id)) :
    (∃ p ∈ periodRows db wstart wstop, p.user = u) ↔
      (u ∈ db.users ∧ u.isActive = true ∧
        ∃ c ∈ db.claims, c.isValid = true ∧ c.userId = u.id ∧
          wstart ≤ c.createdAt ∧ c.createdAt ≤ wstop) := by
  constructor
  · rintro ⟨p, hp, rfl⟩
    rw [periodRows, List.mem_filterMap] at hp
    obtain ⟨uid, hgid, hf⟩ := hp
    cases hfu : findUser db uid with
    | none =>
      rw [hfu] at hf
      cases hf
    | some v =>
      simp only [hfu] at hf
      by_cases hact : v.isActive = true
      · rw [if_pos hact] at hf
        have hpv : p.user = v := by
          have := Option.some.inj hf
          rw [← this]
        have hvid : v.id = uid := by
          have := List.find?_some hfu
          simpa using this
        refine ⟨?_, ?_, ?_⟩
        · rw [hpv]
          exact List.mem_of_find?_eq_some hfu
        · rw [hpv]
          exact hact
        · rw [groupIds, List.mem_dedup, List.mem_map] at hgid
          obtain ⟨c, hcw, hcu⟩ := hgid
          rw [mem_windowClaims_iff] at hcw
          exact ⟨c, hcw.1, hcw.2.1, by rw [hcu, hpv, hvid], hcw.2.2.1, hcw.2.2.2⟩
      · rw [if_neg hact] at hf
        cases hf
  · rintro ⟨hu, hact, c, hc, hcv, hcu, h1, h2⟩
    rw [periodRows]
    refine ⟨⟨u, periodPointsOf (windowClaims db wstart wstop) u.id,
      periodClaimsOf (windowClaims db wstart wstop) u.id⟩, ?_, rfl⟩
    rw [List.mem_filterMap]
    refine ⟨u.id, ?_, ?_⟩
    · rw [groupIds, List.mem_dedup, List.mem_map]
      exact ⟨c, (mem_windowClaims_iff db wstart wstop c).mpr ⟨hc, hcv, h1, h2⟩, hcu⟩
    · have hfind : findUser db u.id = some u := find?_user_eq db.users u husers hu
      simp only [hfind]
      rw [if_pos hact]

/-- C6: with a limit at least the number of qualifying participants, the
windowed leaderboard contains exactly the active participants having at
least one valid claim with createdAt inside the window given by
getDateRange, is ordered by windowed point sum descending then windowed
claim count descending, carries sequential 1-based ranks, and any active
stored participant stays present in the global ordering regardless of the
window. -/
theorem c6_windowed_leaderboard (db : Db) (period : Period) (clk : Clock)
    (limit : Nat) (u : User) (wstart wstop : Nat)
    (hrange : getDateRange period clk = (wstart, wstop))
    (husers : db.users.Pairwise (fun a b => a.id ≠ b.id))
    (hlim : (periodRows db wstart wstop).length ≤ limit) :
    ((∃ e ∈ periodLeaderboard db wstart wstop limit, e.user = u) ↔
      (u ∈ db.users ∧ u.isActive = true ∧
        ∃ c ∈ db.claims, c.isValid = true ∧ c.userId = u.id ∧
          wstart ≤ c.createdAt ∧ c.createdAt ≤ wstop)) ∧
    (periodLeaderboard db wstart wstop limit).Pairwise (fun a b =>
      b.periodPoints < a.periodPoints ∨
        (a.periodPoints = b.periodPoints ∧ b.periodClaims ≤ a.periodClaims)) ∧
    (periodLeaderboard db wstart wstop limit).map (fun e => e.rank) =
      List.range' 1 (periodLeaderboard db wstart wstop limit).length ∧
    (u ∈ db.users → u.isActive = true → u ∈ sortedActive db) := by
  have hsl : ((periodRows db wstart wstop).insertionSort rowLeP).take limit =
      (periodRows db wstart wstop).insertionSort rowLeP := by
    refine List.take_of_length_le ?_
    rw [(List.perm_insertionSort rowLeP _).length_eq]
    exact hlim
  refine ⟨?_, ?_, ?_, ?_⟩
  · rw [periodLeaderboard, mem_withRanksW_iff, hsl]
    rw [← mem_periodRows_iff db wstart wstop u husers]
    constructor
    · rintro ⟨p, hp, hx⟩
      exact ⟨p, (List.Perm.mem_iff (List.perm_insertionSort rowLeP _)).mp hp, hx⟩
    · rintro ⟨p, hp, hx⟩
      exact ⟨p, (List.Perm.mem_iff (List.perm_insertionSort rowLeP _)).mpr hp, hx⟩
  · have h1 : (((periodRows db wstart wstop).insertionSort rowLeP).take limit).Pairwise
        rowLeP :=
      List.Pairwise.sublist (List.take_sublist _ _)
        (List.sorted_insertionSort rowLeP _)
    have h2 : ((periodLeaderboard db wstart wstop limit).map
        (fun e => (⟨e.user, e.periodPoints, e.periodClaims⟩ : PRow))).Pairwise rowLeP := by
      rw [periodLeaderboard, withRanksW_map_row]
      exact h1
    exact List.pairwise_map.mp h2
  · rw [periodLeaderboard, withRanksW_map_rank, withRanksW_length]
  · intro hu hact
    exact mem_sortedActive db u hu hact

/-- Participant of the stale-claim scenario: one active user whose only
valid claim is eight days old. -/
def exUserOld : User := ⟨0, 4, 1, true, 0, 0⟩

def exClaimOld : Claim := ⟨0, 0, 4, ClaimType.manual, true, 100⟩

def exDbOld : Db := ⟨[exUserOld], [exClaimOld], 1⟩

/-- Clock for the scenario: now = 900, local midnight = 820, so the claim
created at 100 lies well before the window of period today. -/
def exClockOld : Clock := ⟨900, 820, 0, 0⟩

/-- C6 witness: the §8 scenario instantiated — the participant whose only
valid claim is outside the today window is absent from the windowed
leaderboard yet still present in the global ordering. -/
theorem c6_windowed_leaderboard_witness :
    ¬ (∃ e ∈ periodLeaderboard exDbOld 820 900 10, e.user = exUserOld) ∧
    exUserOld ∈ sortedActive exDbOld := by
  have h := c6_windowed_leaderboard exDbOld Period.today exClockOld 10 exUserOld 820 900
    rfl (by decide) (by decide)
  constructor
  · intro hex
    obtain ⟨-, -, c, hc, -, -, h1, -⟩ := h.1.mp hex
    rw [show exDbOld.claims = [exClaimOld] from rfl, List.mem_singleton] at hc
    rw [hc] at h1
    exact absurd h1 (by decide)
  · exact h.2.2.2 (by decide) (by decide)

theorem incUser_map_lastActivity (us : List User) (uid : Nat) (dp dc : Int) :
    (incUser us uid dp dc).map (fun v => v.lastActivity) =
      us.map (fun v => v.lastActivity) := by
  rw [incUser, List.map_map]
  refine List.map_congr_left ?_
  intro u hu
  by_cases h : u.id = uid
  · simp [h]
  · simp [h]

/-- C8 counterexample: submitting a five-point claim at time 50 sets the
participant's lastActivity to 50, but the subsequent invalidation of that
claim leaves lastActivity at 50 — the DELETE route performs no lastActivity
write, so invalidation does not update it to the operation time. -/
theorem c8_counterexample :
    (applyOps exDb [Op.submit 0 ClaimType.manual (some 5) 0 50 true]).users.map
        (fun v => v.lastActivity) = [50] ∧
    (applyOps exDb [Op.submit 0 ClaimType.manual (some 5) 0 50 true, Op.revoke 0]).users.map
        (fun v => v.lastActivity) = [50] := by
  decide

/-- C8 (amended): a successful claim submission whose post-save hook
succeeds sets the owning participant's lastActivity to the submission time;
a claim invalidation leaves every participant's lastActivity unchanged. -/
theorem c8_lastActivity (db dbd : Db) (uid : Nat) (ct : ClaimType) (pts : Option Nat)
    (draw now cid : Nat) (c cd : Claim) (db2 dbd2 : Db)
    (hs : submitClaim db uid ct pts draw now true = (SubmitResult.created c, db2))
    (hd : deleteClaim dbd cid = some (cd, dbd2)) :
    (∀ v ∈ db2.users, v.id = uid → v.lastActivity = now) ∧
    dbd2.users.map (fun v => v.lastActivity) = dbd.users.map (fun v => v.lastActivity) := by
  constructor
  · cases hfu : findUser db uid with
    | none =>
      rw [submitClaim_notFound db uid ct pts draw now true hfu] at hs
      cases hs
    | some u =>
      by_cases hact : u.isActive = true
      · cases hcp : claimPointsOf ct pts draw with
        | none =>
          rw [submitClaim_noPoints db uid ct pts draw now true u hfu hact hcp] at hs
          cases hs
        | some p =>
          by_cases hp : p < 1 ∨ 10 < p
          · rw [submitClaim_badPoints db uid ct pts draw now true u p hfu hact hcp hp] at hs
            cases hs
          · rw [submitClaim_created db uid ct pts draw now true u p hfu hact hcp hp] at hs
            have hdb2 : db2 = Db.mk (incUserTouch db.users uid (p : Int) 1 now)
                (db.claims ++ [⟨db.nextClaimId, uid, p, ct, true, now⟩])
                (db.nextClaimId + 1) := by
              have hsnd := congrArg Prod.snd hs
              simpa using hsnd.symm
            rw [hdb2]
            intro v hv hvid
            simp only at hv
            rw [incUserTouch, List.mem_map] at hv
            obtain ⟨w, hw, rfl⟩ := hv
            by_cases h : w.id = uid
            · have hb : (w.id == uid) = true := by simp [h]
              simp only [hb, if_true]
            · have hb : (w.id == uid) = false := by simp [h]
              rw [hb] at hvid
              simp only [Bool.false_eq_true, if_false] at hvid
              exact absurd hvid h
      · rw [submitClaim_inactive db uid ct pts draw now true u hfu hact] at hs
        cases hs
  · cases hfc : findClaim dbd cid with
    | none =>
      rw [deleteClaim_none dbd cid hfc] at hd
      cases hd
    | some c0 =>
      rw [deleteClaim_found dbd cid c0 hfc] at hd
      have hdbd2 : dbd2 = Db.mk (incUser dbd.users c0.userId (-(c0.points : Int)) (-1))
          (dbd.claims.map (fun d => if d.id == cid then { d with isValid := false } else d))
          dbd.nextClaimId := by
        have hsnd := congrArg (fun r => Prod.snd r) (Option.some.inj hd)
        simpa using hsnd.symm
      rw [hdbd2]
      simp only
      exact incUser_map_lastActivity dbd.users c0.userId (-(c0.points : Int)) (-1)

/-- Concrete outcome of submitting a five-point manual claim at time 50 to
the one-user store. -/
def exC8claim : Claim := ⟨0, 0, 5, ClaimType.manual, true, 50⟩

def exC8db : Db := ⟨[⟨0, 5, 1, true, 0, 50⟩], [exC8claim], 1⟩

/-- Concrete outcome of invalidating the stale claim of exDbOld. -/
def exClaimOldDel : Claim := ⟨0, 0, 4, ClaimType.manual, false, 100⟩

def exDbOldDel : Db := ⟨[⟨0, 0, 0, true, 0, 0⟩], [exClaimOldDel], 1⟩

/-- C8 witness: the amended statement instantiated at the one-user store
for submission and at the stale-claim store for invalidation. -/
theorem c8_lastActivity_witness :
    (∀ v ∈ exC8db.users, v.id = 0 → v.lastActivity = 50) ∧
    exDbOldDel.users.map (fun v => v.lastActivity) =
      exDbOld.users.map (fun v => v.lastActivity) :=
  c8_lastActivity exDb exDbOld 0 ClaimType.manual (some 5) 0 50 0 exC8claim exClaimOldDel
    exC8db exDbOldDel (by decide) (by decide)

/-- C9: a claim submission naming a participant that does not exist or is
inactive is rejected with the not-found error and leaves the store
untouched: no claim record is created and every participant's aggregates
are unchanged. -/
theorem c9_unknown_participant_rejected (db : Db) (uid : Nat) (ct : ClaimType)
    (pts : Option Nat) (draw now : Nat) (hookOk : Bool)
    (h : ∀ u ∈ db.users, u.id = uid → u.isActive = false) :
    submitClaim db uid ct pts draw now hookOk = (SubmitResult.userNotFound, db) := by
  cases hfu : findUser db uid with
  | none => exact submitClaim_notFound db uid ct pts draw now hookOk hfu
  | some u =>
    have hmem : u ∈ db.users := List.mem_of_find?_eq_some hfu
    have hid : u.id = uid := by simpa using List.find?_some hfu
    have hin : u.isActive = false := h u hmem hid
    refine submitClaim_inactive db uid ct pts draw now hookOk u hfu ?_
    rw [hin]
    simp

/-- Store with a single inactive participant. -/
def exDbInactive : Db := ⟨[⟨0, 0, 0, false, 0, 0⟩], [], 0⟩

/-- C9 witness: submitting for the inactive participant returns the
not-found error and the unchanged store. -/
theorem c9_unknown_participant_rejected_witness :
    submitClaim exDbInactive 0 ClaimType.manual (some 5) 0 10 true =
      (SubmitResult.userNotFound, exDbInactive) :=
  c9_unknown_participant_rejected exDbInactive 0 ClaimType.manual (some 5) 0 10 true
    (by decide)

/-- C10: when the aggregate update inside the post-save hook fails, the
error is only logged: the route still reports success and returns the
created claim, the claim is persisted in the ledger, and the participant
aggregates (the whole users collection) are left unchanged. -/
theorem c10_hook_failure_logged_only (db : Db) (uid : Nat) (ct : ClaimType)
    (pts : Option Nat) (draw now p : Nat) (u : User)
    (hfu : findUser db uid = some u) (hact : u.isActive = true)
    (hcp : claimPointsOf ct pts draw = some p) (h1 : 1 ≤ p) (h2 : p ≤ 10) :
    submitClaim db uid ct pts draw now false =
      (SubmitResult.created ⟨db.nextClaimId, uid, p, ct, true, now⟩,
        { users := db.users,
          claims := db.claims ++ [⟨db.nextClaimId, uid, p, ct, true, now⟩],
          nextClaimId := db.nextClaimId + 1 }) := by
  rw [submitClaim_created db uid ct pts draw now false u p hfu hact hcp (by omega)]
  rfl

/-- C10 witness: hook failure on the one-user store still yields the
created claim while the stored aggregates stay zero. -/
theorem c10_hook_failure_logged_only_witness :
    submitClaim exDb 0 ClaimType.manual (some 5) 0 50 false =
      (SubmitResult.created ⟨0, 0, 5, ClaimType.manual, true, 50⟩,
        { users := exDb.users, claims := exDb.claims ++ [exC8claim],
          nextClaimId := 1 }) :=
  c10_hook_failure_logged_only exDb 0 ClaimType.manual (some 5) 0 50 5 exUser
    (by decide) (by decide) (by decide) (by decide) (by decide)

end LB
